import Mathlib

/-!
Verification of the symptom search-and-match subsystem of the Health-AI
repository (src/components/ResultDashboard.tsx, SymptomSelector section).

The TypeScript code is shallowly embedded: strings are Lean `String`s
(lowered to `List Char` for the character-level work), the JS `Set` state
is a `Finset String`, the Levenshtein dynamic-programming matrix is built
row by row exactly as the source fills it, and the JS stable `Array.sort`
by descending score is modelled by a stable insertion sort.  A second,
`Option`-valued copy of the pipeline makes every array access of the DP
explicit, to settle the "never throws" claim.
-/

/-- `text.toLowerCase()` of the source, as a character list. -/
def lowerStr (s : String) : List Char := s.data.map Char.toLower

/-- `t.includes(q)` of the source: `q` occurs as a contiguous substring of `t`. -/
def containsSubstr : List Char → List Char → Bool
  | [], q => q.isEmpty
  | c :: t', q => q.isPrefixOf (c :: t') || containsSubstr t' q

/-- `searchQuery.trim()` of the source, on the character list. -/
def trimL (s : List Char) : List Char :=
  ((s.dropWhile Char.isWhitespace).reverse.dropWhile Char.isWhitespace).reverse

/-- `searchQuery.trim()` of the source. -/
def strTrim (s : String) : String := String.mk (trimL s.data)

/-- One inner step of the Levenshtein matrix fill of `levenshteinDistance`
(source lines 832-857): given the character `bc = b[i-1]` of the current row,
the remaining characters of `a`, the diagonal entry `matrix[i-1][j-1]`, the
entry to the left `matrix[i][j-1]` and the rest of the previous row starting
at `matrix[i-1][j]`, produce the entries `matrix[i][j..]` of the current row. -/
def levGo (bc : Char) : List Char → Nat → Nat → List Nat → List Nat
  | [], _, _, _ => []
  | _ :: _, _, _, [] => []
  | ac :: as, diag, left, up :: ps =>
    let v := if bc = ac then diag else min (diag + 1) (min (left + 1) (up + 1))
    v :: levGo bc as up v ps

/-- Row `i` of the Levenshtein matrix, from row `i-1` (`prev`): the source
initialises `matrix[i] = [i]` and fills the row left to right. -/
def levRowNext (a : List Char) (bc : Char) (i : Nat) : List Nat → List Nat
  | [] => [i]
  | d :: ps => i :: levGo bc a d i ps

/-- The outer row loop of `levenshteinDistance`: one row per character of `b`. -/
def levLoop (a : List Char) : List Char → Nat → List Nat → List Nat
  | [], _, prev => prev
  | bc :: bs, i, prev => levLoop a bs (i + 1) (levRowNext a bc i prev)

/-- `levenshteinDistance(a, b)` of the source: row 0 is `0, 1, ..., a.length`,
one row is added per character of `b`, and the answer is
`matrix[b.length][a.length]`. -/
def levenshteinDistance (a b : List Char) : Nat :=
  (levLoop a b 1 (List.range (a.length + 1))).getD a.length 0

/-- `getMatchScore(text, query)` of the source (lines 860-886): exact match
100, query a leading part of the candidate 80, substring 60, then the fuzzy
tier for queries longer than 2 characters with tolerance 1 (length at most 5)
or 2, scoring `50 - distance * 10`; otherwise 0. -/
def getMatchScore (text query : String) : Nat :=
  let t := lowerStr text
  let q := lowerStr query
  if t = q then 100
  else if q.isPrefixOf t then 80
  else if containsSubstr t q then 60
  else if 2 < q.length then
    let distance := levenshteinDistance q t
    let allowedErrors := if 5 < q.length then 2 else 1
    if distance ≤ allowedErrors then 50 - distance * 10 else 0
  else 0

/-- The `SYNONYMS` table of the source (lines 791-828), in declaration order. -/
def SYNONYMS : List (String × List String) :=
  [("Fever", ["high temperature", "hot", "pyrexia", "burning up", "chills", "feverish", "feeling hot"]),
   ("Fatigue", ["tired", "exhaustion", "weak", "weary", "lethargy", "drained", "no energy", "sleepy", "burnout"]),
   ("Nausea", ["queasy", "sick to stomach", "urges to vomit", "upset stomach", "nauseous", "groggy"]),
   ("Vomiting", ["throwing up", "puke", "barf", "sickness", "retching", "heaving"]),
   ("Abdominal pain", ["stomach ache", "belly pain", "tummy ache", "gut pain", "cramps", "stomach pain", "pain in stomach", "gastritis"]),
   ("Diarrhea", ["runny stool", "loose stools", "the runs", "poop", "liquid stool", "dysentery", "bowel issues"]),
   ("Shortness of breath", ["dyspnea", "hard to breathe", "winded", "gasping", "cant breathe", "breathless", "short breath", "air hunger"]),
   ("Edema", ["swelling", "puffy", "fluid retention", "swollen", "bloated", "puffiness"]),
   ("Headache", ["migraine", "head pain", "throbbing head", "splitting headache", "tension headache", "head pressure"]),
   ("Insomnia", ["cant sleep", "sleepless", "awake", "trouble sleeping", "restless", "waking up"]),
   ("Weight loss", ["lost weight", "skinny", "thin", "shedding pounds", "anorexia"]),
   ("Hypertension", ["high blood pressure", "bp", "elevated pressure"]),
   ("Chest pain", ["angina", "tight chest", "pressure", "heart pain", "chest tightness", "heavy chest"]),
   ("Rash", ["spots", "hives", "breakout", "skin irritation", "itchy skin", "redness", "eczema", "dermatitis", "acne"]),
   ("Joint pain", ["arthritis", "stiff joints", "aching joints", "knee pain", "elbow pain", "wrist pain", "hip pain", "gout"]),
   ("Cough", ["coughing", "hack", "phlegm", "dry cough", "wet cough", "barking cough"]),
   ("Sore throat", ["throat pain", "hurts to swallow", "pharyngitis", "scratchy throat", "strep", "tonsillitis"]),
   ("Dizziness", ["lightheaded", "spinning", "vertigo", "unsteady", "faint", "woozy", "balance issues"]),
   ("Palpitations", ["racing heart", "heart skip", "fluttering", "thumping", "rapid heartbeat", "heart pounding"]),
   ("Tremors", ["shaking", "shivers", "twitching", "trembling", "shakes"]),
   ("Vision changes", ["blurry vision", "seeing double", "vision loss", "spots in eyes", "blindness", "eye strain"]),
   ("Confusion", ["disoriented", "brain fog", "mixed up", "delirium", "memory loss", "forgetful"]),
   ("Numbness", ["tingling", "pins and needles", "loss of sensation", "asleep limb", "paresthesia"]),
   ("Constipation", ["cant poop", "hard stool", "blocked", "irregular", "strained bowel"]),
   ("Indigestion", ["heartburn", "acid reflux", "gerd", "burping", "gas", "bloating"]),
   ("Muscle ache", ["body ache", "sore muscles", "painful muscles", "myalgia", "cramps"]),
   ("Runny nose", ["snot", "boogers", "nasal drip", "rhinorrhea", "stuffy nose"]),
   ("Sneezing", ["achoo", "sneezes", "allergy"]),
   ("Itching", ["scratchy", "itch", "pruritus"]),
   ("Watery eyes", ["tearing", "crying", "teary", "red eyes"]),
   ("Chills", ["shivering", "cold", "goosebumps", "feeling cold"]),
   ("Sweating", ["perspiration", "sweaty", "clammy", "hot flashes"]),
   ("Night sweats", ["sweating at night", "soaked sheets"]),
   ("Anxiety", ["nervous", "worry", "panic", "stress", "uneasy", "fear", "tension"]),
   ("Depression", ["sad", "down", "hopeless", "unhappy", "blues", "low mood"]),
   ("Mood swings", ["emotional", "irritable", "bipolar"])]

/-- The synonym loop of `displayedCategories` (lines 1031-1037): starting from
the symptom's own score, replace the running maximum whenever a synonym
scores strictly higher. -/
def synFold (query : String) : List String → Nat → Nat
  | [], m => m
  | syn :: syns, m =>
    let synScore := getMatchScore syn query
    synFold query syns (if m < synScore then synScore else m)

/-- A symptom's effective score: its own `getMatchScore`, improved by every
registered synonym (lines 1029-1039). -/
def effectiveScore (item query : String) : Nat :=
  let base := getMatchScore item query
  match SYNONYMS.lookup item with
  | none => base
  | some syns => synFold query syns base

/-- Insertion step of a stable descending sort on scores: the new pair goes
after every earlier pair with a strictly greater score and before the first
pair whose score is not greater, matching the JS stable
`sort((a, b) => b.score - a.score)`. -/
def insertDesc (p : String × Nat) : List (String × Nat) → List (String × Nat)
  | [] => [p]
  | q :: rest => if p.2 < q.2 then q :: insertDesc p rest else p :: q :: rest

/-- Stable sort by score descending, modelling
`relevantItems.sort((a, b) => b.score - a.score)` (line 1045). -/
def sortDesc : List (String × Nat) → List (String × Nat)
  | [] => []
  | p :: rest => insertDesc p (sortDesc rest)

/-- The `CATEGORIES` taxonomy of the source (lines 911-944), category names
with their symptom lists in declaration order (icons are UI-only and dropped). -/
def CATEGORIES : List (String × List String) :=
  [("General", ["Fever", "Fatigue", "Chills", "Weakness", "Dizziness", "Insomnia", "Weight loss", "Night sweats", "Sweating"]),
   ("Respiratory", ["Cough", "Shortness of breath", "Sore throat", "Runny nose", "Wheezing", "Chest congestion", "Congestion", "Sneezing"]),
   ("Digestive", ["Nausea", "Vomiting", "Diarrhea", "Abdominal pain", "Bloating", "Heartburn", "Loss of appetite", "Indigestion", "Constipation"]),
   ("Cardiovascular", ["Chest pain", "Palpitations", "Fast heart rate", "Swollen legs", "Cold extremities", "Irregular heartbeat"]),
   ("Neurological", ["Headache", "Confusion", "Numbness", "Tremors", "Seizures", "Slurred speech", "Vision changes"]),
   ("Pain", ["Back pain", "Joint pain", "Muscle ache", "Neck pain", "Sharp pain", "Dull ache"]),
   ("Skin", ["Rash", "Itching", "Redness", "Swelling", "Bruising", "Dry skin", "Hives", "Watery eyes"]),
   ("Mental Health", ["Anxiety", "Depression", "Mood swings", "Panic attacks", "Stress", "Irritability"])]

/-- The per-category body of the `displayedCategories` memo (lines 1010-1055):
drop inactive categories, pass surviving categories through unchanged on an
empty trimmed query, bypass item filtering when the category name scores at
least 90, otherwise keep and rank the positively-scoring symptoms. -/
def processCategory (active : Finset String) (rawQuery : String)
    (cat : String) (items : List String) : Option (String × List String) :=
  if "All" ∈ active ∨ cat ∈ active then
    let query := strTrim rawQuery
    if query.data = [] then some (cat, items)
    else
      let categoryScore := getMatchScore cat query
      let scoredItems := items.map (fun item => (item, effectiveScore item query))
      let relevantItems := scoredItems.filter (fun p => 0 < p.2)
      let sorted := sortDesc relevantItems
      if 90 ≤ categoryScore then some (cat, items)
      else if 0 < relevantItems.length then some (cat, sorted.map (fun p => p.1))
      else none
  else none

/-- `displayedCategories` as a function of the query and the active category
set: every category of the taxonomy is processed in declaration order and the
`null` entries are dropped (`.filter(Boolean)`, lines 1010-1058). -/
def filterAndRank (rawQuery : String) (active : Finset String) : List (String × List String) :=
  CATEGORIES.filterMap (fun c => processCategory active rawQuery c.1 c.2)

/-- `toggleCategory` of the source (lines 981-1003) on the active-category
set: clicking `All` resets to the sentinel; otherwise the sentinel is removed,
the clicked category is toggled, and an emptied set falls back to the sentinel. -/
def toggleCategory (active : Finset String) (cat : String) : Finset String :=
  if cat = "All" then {"All"}
  else
    let s1 := if "All" ∈ active then active.erase "All" else active
    let s2 := if cat ∈ s1 then s1.erase cat else insert cat s1
    if s2 = ∅ then {"All"} else s2

/-- The reactive state of the `SymptomSelector` component: the open flag held
by the host (`isSymptomModalOpen` in App.tsx) together with the component's
`selected`, `searchQuery` and `activeCategories` state. -/
structure SelectorState where
  isOpen : Bool
  selected : Finset String
  searchQuery : String
  activeCategories : Finset String
deriving DecidableEq

/-- `toggleSymptom` of the source (lines 955-963): add the symptom if absent,
remove it if present. -/
def toggleSymptom (st : SelectorState) (symptom : String) : SelectorState :=
  { st with selected :=
      if symptom ∈ st.selected then st.selected.erase symptom
      else insert symptom st.selected }

/-- `handleConfirm` of the source (lines 965-971): emit the selection, reset
`selected`, `searchQuery` and `activeCategories`, and close the modal. -/
def handleConfirm (st : SelectorState) : SelectorState × Finset String :=
  ({ isOpen := false, selected := ∅, searchQuery := "", activeCategories := {"All"} },
   st.selected)

/-- The Cancel button and the backdrop/X close path: both invoke only
`onClose`, which clears the host's `isSymptomModalOpen` flag; the component
stays mounted, so its internal state is untouched. -/
def handleCancel (st : SelectorState) : SelectorState :=
  { st with isOpen := false }

/-!  Bounds-checked copy of the pipeline.  Every array read the source
performs on the DP matrix (`matrix[i-1][j-1]`, `matrix[i][j-1]`,
`matrix[i-1][j]`, final `matrix[b.length][a.length]`) is made a fallible
lookup, so that "this code never throws" becomes the provable statement
that the checked pipeline always returns `some`. -/

/-- `levGo` with the reads of the previous row made fallible. -/
def levGoC (bc : Char) : List Char → Nat → Nat → List Nat → Option (List Nat)
  | [], _, _, _ => some []
  | _ :: _, _, _, [] => none
  | ac :: as, diag, left, up :: ps =>
    let v := if bc = ac then diag else min (diag + 1) (min (left + 1) (up + 1))
    (levGoC bc as up v ps).map (fun r => v :: r)

/-- `levRowNext` with the read of `matrix[i-1][0]` made fallible. -/
def levRowNextC (a : List Char) (bc : Char) (i : Nat) : List Nat → Option (List Nat)
  | [] => none
  | d :: ps => (levGoC bc a d i ps).map (fun r => i :: r)

/-- `levLoop` over the checked rows. -/
def levLoopC (a : List Char) : List Char → Nat → List Nat → Option (List Nat)
  | [], _, prev => some prev
  | bc :: bs, i, prev => (levRowNextC a bc i prev).bind (fun r => levLoopC a bs (i + 1) r)

/-- `levenshteinDistance` with every matrix access checked, including the
final read of `matrix[b.length][a.length]`. -/
def levenshteinDistanceC (a b : List Char) : Option Nat :=
  (levLoopC a b 1 (List.range (a.length + 1))).bind (fun row => row[a.length]?)

/-- `getMatchScore` over the checked distance. -/
def getMatchScoreC (text query : String) : Option Nat :=
  let t := lowerStr text
  let q := lowerStr query
  if t = q then some 100
  else if q.isPrefixOf t then some 80
  else if containsSubstr t q then some 60
  else if 2 < q.length then
    (levenshteinDistanceC q t).map (fun distance =>
      let allowedErrors := if 5 < q.length then 2 else 1
      if distance ≤ allowedErrors then 50 - distance * 10 else 0)
  else some 0

/-- The synonym loop over the checked scorer. -/
def synFoldC (query : String) : List String → Nat → Option Nat
  | [], m => some m
  | syn :: syns, m =>
    (getMatchScoreC syn query).bind (fun synScore =>
      synFoldC query syns (if m < synScore then synScore else m))

/-- The effective score over the checked scorer. -/
def effectiveScoreC (item query : String) : Option Nat :=
  (getMatchScoreC item query).bind (fun base =>
    match SYNONYMS.lookup item with
    | none => some base
    | some syns => synFoldC query syns base)

/-- Monadic map over `Option`, used to thread possible failure through the
per-item and per-category loops of the checked pipeline. -/
def mapOpt {α β : Type} (f : α → Option β) : List α → Option (List β)
  | [] => some []
  | a :: as => (f a).bind (fun b => (mapOpt f as).map (fun bs => b :: bs))

/-- `processCategory` over the checked scorer: the outer `Option` is failure
(a thrown exception in the source), the inner one is a dropped category. -/
def processCategoryC (active : Finset String) (rawQuery : String)
    (cat : String) (items : List String) : Option (Option (String × List String)) :=
  if "All" ∈ active ∨ cat ∈ active then
    let query := strTrim rawQuery
    if query.data = [] then some (some (cat, items))
    else
      (getMatchScoreC cat query).bind (fun categoryScore =>
      (mapOpt (fun item => (effectiveScoreC item query).map (fun s => (item, s))) items).map
        (fun scoredItems =>
          let relevantItems := scoredItems.filter (fun p => 0 < p.2)
          let sorted := sortDesc relevantItems
          if 90 ≤ categoryScore then some (cat, items)
          else if 0 < relevantItems.length then some (cat, sorted.map (fun p => p.1))
          else none))
  else some none

/-- `filterAndRank` over the checked pipeline: `some` exactly when no matrix
access of the whole scoring pass can fail. -/
def filterAndRankC (rawQuery : String) (active : Finset String) :
    Option (List (String × List String)) :=
  (mapOpt (fun c => processCategoryC active rawQuery c.1 c.2) CATEGORIES).map List.reduceOption

/-!  Lemmas about the Levenshtein dynamic program. -/

/-- `levGo` produces one matrix entry per remaining character of `a`. -/
theorem levGo_length (bc : Char) :
    ∀ (as : List Char) (ps : List Nat) (diag left : Nat),
      ps.length = as.length → (levGo bc as diag left ps).length = as.length := by
  intro as
  induction as with
  | nil => intro ps diag left _; cases ps <;> simp [levGo]
  | cons ac as ih =>
    intro ps diag left h
    cases ps with
    | nil => simp at h
    | cons up ps' =>
      simp only [levGo, List.length_cons] at h ⊢
      rw [ih ps' up _ (by omega)]

/-- A freshly built row has one entry per column of the matrix. -/
theorem levRowNext_length (a : List Char) (bc : Char) (i : Nat) (prev : List Nat)
    (h : prev.length = a.length + 1) :
    (levRowNext a bc i prev).length = a.length + 1 := by
  cases prev with
  | nil => simp at h
  | cons d ps =>
    simp only [levRowNext, List.length_cons]
    rw [levGo_length bc a ps d i (by simpa using h)]

/-- Every row produced by the row loop keeps the full width of the matrix. -/
theorem levLoop_length (a : List Char) :
    ∀ (bs : List Char) (i : Nat) (prev : List Nat),
      prev.length = a.length + 1 → (levLoop a bs i prev).length = a.length + 1 := by
  intro bs
  induction bs with
  | nil => intro i prev h; simpa [levLoop] using h
  | cons bc bs ih =>
    intro i prev h
    simp only [levLoop]
    exact ih (i + 1) _ (levRowNext_length a bc i prev h)

/-- Zero invariant of the inner fill: if an entry of the new row is zero, the
row's prefix of `b` (previous prefix `bprev` extended by `bc`) equals the
corresponding prefix of `a`.  `apre` is the prefix of `a` left of the entries
produced by this call. -/
theorem levGo_zero (bc : Char) (bprev : List Char) :
    ∀ (as : List Char) (ps : List Nat) (diag left : Nat) (apre : List Char),
      ps.length = as.length →
      (diag = 0 → bprev = apre) →
      (∀ k w, ps[k]? = some w → w = 0 → bprev = apre ++ as.take (k + 1)) →
      ∀ k v, (levGo bc as diag left ps)[k]? = some v → v = 0 →
        bprev ++ [bc] = apre ++ as.take (k + 1) := by
  intro as
  induction as with
  | nil =>
    intro ps diag left apre _ _ _ k v hget
    simp [levGo] at hget
  | cons ac as ih =>
    intro ps diag left apre hlen hdiag hps k v hget hv
    cases ps with
    | nil => simp at hlen
    | cons up ps' =>
      simp only [levGo] at hget
      cases k with
      | zero =>
        rw [List.getElem?_cons_zero, Option.some_inj] at hget
        by_cases hc : bc = ac
        · rw [if_pos hc] at hget
          have hd0 : diag = 0 := hget.trans hv
          rw [hdiag hd0, hc]
          simp [List.take_succ_cons]
        · rw [if_neg hc] at hget
          have h0 : min (diag + 1) (min (left + 1) (up + 1)) = 0 := hget.trans hv
          rcases Nat.min_eq_zero_iff.1 h0 with h | h
          · omega
          · rcases Nat.min_eq_zero_iff.1 h with h | h <;> omega
      | succ k =>
        rw [List.getElem?_cons_succ] at hget
        have hd' : up = 0 → bprev = apre ++ [ac] := by
          intro hu
          have := hps 0 up (by simp) hu
          simpa [List.take_succ_cons] using this
        have hps' : ∀ k w, ps'[k]? = some w → w = 0 →
            bprev = (apre ++ [ac]) ++ as.take (k + 1) := by
          intro k w hk hw
          have := hps (k + 1) w (by simpa using hk) hw
          simpa [List.take_succ_cons, List.append_assoc] using this
        have := ih ps' up _ (apre ++ [ac]) (by simpa using hlen) hd' hps' k v hget hv
        simpa [List.take_succ_cons, List.append_assoc] using this

/-- Zero invariant of a full row: a zero entry at column `j` of row `i`
(whose `b`-prefix is `bprev ++ [bc]`) forces that prefix to equal `a.take j`. -/
theorem levRowNext_zero (a : List Char) (bc : Char) (bprev : List Char) (i : Nat)
    (prev : List Nat) (hi : i ≠ 0) (hlen : prev.length = a.length + 1)
    (hprev : ∀ j v, prev[j]? = some v → v = 0 → bprev = a.take j) :
    ∀ j v, (levRowNext a bc i prev)[j]? = some v → v = 0 →
      bprev ++ [bc] = a.take j := by
  cases prev with
  | nil => simp at hlen
  | cons d ps =>
    intro j v hget hv
    cases j with
    | zero =>
      simp only [levRowNext, List.getElem?_cons_zero, Option.some_inj] at hget
      omega
    | succ j =>
      simp only [levRowNext, List.getElem?_cons_succ] at hget
      have hd : d = 0 → bprev = [] := by
        intro hd0
        simpa using hprev 0 d (by simp) hd0
      have hps : ∀ k w, ps[k]? = some w → w = 0 → bprev = [] ++ a.take (k + 1) := by
        intro k w hk hw
        simpa using hprev (k + 1) w (by simpa using hk) hw
      simpa using levGo_zero bc bprev a ps d i [] (by simpa using hlen) hd hps j v hget hv

/-- Zero invariant through the row loop: a zero entry at column `j` of the
final row forces the processed prefix of `b` to equal `a.take j`. -/
theorem levLoop_zero (a : List Char) :
    ∀ (bs : List Char) (i : Nat) (prev : List Nat) (bdone : List Char),
      i ≠ 0 → prev.length = a.length + 1 →
      (∀ j v, prev[j]? = some v → v = 0 → bdone = a.take j) →
      ∀ j v, (levLoop a bs i prev)[j]? = some v → v = 0 →
        bdone ++ bs = a.take j := by
  intro bs
  induction bs with
  | nil =>
    intro i prev bdone _ _ h j v hget hv
    simpa using h j v hget hv
  | cons bc bs ih =>
    intro i prev bdone hi hlen h j v hget hv
    simp only [levLoop] at hget
    have := ih (i + 1) (levRowNext a bc i prev) (bdone ++ [bc]) (by omega)
      (levRowNext_length a bc i prev hlen)
      (levRowNext_zero a bc bdone i prev hi hlen h) j v hget hv
    simpa [List.append_assoc] using this

/-- If the Levenshtein distance computed by the source's dynamic program is
zero, the two strings are equal. -/
theorem levenshteinDistance_eq_zero {a b : List Char}
    (h : levenshteinDistance a b = 0) : b = a := by
  have hbase : ∀ j v, (List.range (a.length + 1))[j]? = some v → v = 0 →
      ([] : List Char) = a.take j := by
    intro j v hget hv
    rcases List.getElem?_eq_some_iff.1 hget with ⟨hj, hval⟩
    rw [List.getElem_range] at hval
    subst hval
    simp [hv]
  have hlen := levLoop_length a b 1 (List.range (a.length + 1)) (by simp)
  have hz := levLoop_zero a b 1 (List.range (a.length + 1)) [] (by omega) (by simp) hbase
  have hget : (levLoop a b 1 (List.range (a.length + 1)))[a.length]? =
      some ((levLoop a b 1 (List.range (a.length + 1))).getD a.length 0) := by
    rw [List.getD_eq_getElem?_getD]
    rw [List.getElem?_eq_getElem (by omega)]
    rfl
  have := hz a.length _ hget h
  simpa using this

/-!  Lemmas about `getMatchScore`. -/

/-- Case-insensitively equal strings score 100 (tier 1). -/
theorem getMatchScore_eq_100 (t q : String) (h : lowerStr t = lowerStr q) :
    getMatchScore t q = 100 := by
  simp [getMatchScore, h]

/-- Case-insensitively distinct strings score strictly below 90: the
remaining tiers yield 80, 60, at most 50, or 0. -/
theorem getMatchScore_lt_90 (t q : String) (h : lowerStr t ≠ lowerStr q) :
    getMatchScore t q < 90 := by
  simp only [getMatchScore]
  rw [if_neg h]
  repeat' split
  all_goals omega

/-- The score always lands in `{0, 30, 40, 60, 80, 100}`: in the fuzzy tier
the distance is at least 1 (distance 0 would make the lowered strings equal,
already caught by tier 1) and at most the tolerance 2. -/
theorem getMatchScore_mem (t q : String) :
    getMatchScore t q ∈ ([0, 30, 40, 60, 80, 100] : List Nat) := by
  simp only [getMatchScore]
  by_cases h1 : lowerStr t = lowerStr q
  · simp [h1]
  · rw [if_neg h1]
    split
    · simp
    · split
      · simp
      · split
        · have hd : levenshteinDistance (lowerStr q) (lowerStr t) ≠ 0 := by
            intro h0
            exact h1 (levenshteinDistance_eq_zero h0)
          set d := levenshteinDistance (lowerStr q) (lowerStr t) with hdd
          set tol := (if 5 < (lowerStr q).length then 2 else 1 : Nat) with htol
          have htol2 : tol ≤ 2 := by rw [htol]; split <;> omega
          by_cases hle : d ≤ tol
          · rw [if_pos hle]
            have : d = 1 ∨ d = 2 := by omega
            rcases this with h | h <;> rw [h] <;> decide
          · rw [if_neg hle]
            decide
        · simp

/-!  Lemmas about the stable descending sort. -/

/-- Membership through one insertion step. -/
theorem mem_insertDesc (p x : String × Nat) :
    ∀ l : List (String × Nat), x ∈ insertDesc p l ↔ x = p ∨ x ∈ l := by
  intro l
  induction l with
  | nil => simp [insertDesc]
  | cons q l ih =>
    simp only [insertDesc]
    split
    · simp only [List.mem_cons, ih]
      tauto
    · simp [List.mem_cons]

/-- The sort permutes nothing in or out. -/
theorem mem_sortDesc (x : String × Nat) :
    ∀ l : List (String × Nat), x ∈ sortDesc l ↔ x ∈ l := by
  intro l
  induction l with
  | nil => simp [sortDesc]
  | cons p l ih =>
    simp only [sortDesc, mem_insertDesc, ih, List.mem_cons]

/-- Inserting into a descending list keeps it descending. -/
theorem pairwise_insertDesc (p : String × Nat) :
    ∀ l : List (String × Nat), l.Pairwise (fun a b => b.2 ≤ a.2) →
      (insertDesc p l).Pairwise (fun a b => b.2 ≤ a.2) := by
  intro l
  induction l with
  | nil =>
    intro _
    simp [insertDesc]
  | cons q l ih =>
    intro h
    rcases List.pairwise_cons.1 h with ⟨hq, hl⟩
    simp only [insertDesc]
    split
    · rename_i hlt
      refine List.pairwise_cons.2 ⟨?_, ih hl⟩
      intro x hx
      rcases (mem_insertDesc p x l).1 hx with rfl | hx
      · omega
      · exact hq x hx
    · rename_i hnlt
      refine List.pairwise_cons.2 ⟨?_, h⟩
      intro x hx
      rcases List.mem_cons.1 hx with rfl | hx
      · omega
      · have := hq x hx
        omega

/-- The sorted list is descending in the score component. -/
theorem pairwise_sortDesc :
    ∀ l : List (String × Nat), (sortDesc l).Pairwise (fun a b => b.2 ≤ a.2) := by
  intro l
  induction l with
  | nil => simp [sortDesc]
  | cons p l ih => exact pairwise_insertDesc p (sortDesc l) ih

/-- Stability of one insertion step, seen through a per-score filter: the new
pair lands in front of the equal-score pairs already present. -/
theorem filter_insertDesc (p : String × Nat) (s : Nat) :
    ∀ l : List (String × Nat),
      (insertDesc p l).filter (fun x => decide (x.2 = s)) =
        if p.2 = s then p :: l.filter (fun x => decide (x.2 = s))
        else l.filter (fun x => decide (x.2 = s)) := by
  intro l
  induction l with
  | nil =>
    by_cases hp : p.2 = s <;> simp [insertDesc, List.filter_cons, hp]
  | cons q l ih =>
    simp only [insertDesc]
    split
    · rename_i hlt
      by_cases hp : p.2 = s
      · have hq : ¬ (q.2 = s) := by omega
        simp [List.filter_cons, hp, hq, ih]
      · simp only [List.filter_cons, ih, if_neg hp]
    · by_cases hp : p.2 = s <;> by_cases hq : q.2 = s <;>
        simp [List.filter_cons, hp, hq]

/-- Stability of the whole sort: for every score value, the pairs carrying
that score appear in the sorted output exactly in their original order. -/
theorem filter_sortDesc (s : Nat) :
    ∀ l : List (String × Nat),
      (sortDesc l).filter (fun x => decide (x.2 = s)) =
        l.filter (fun x => decide (x.2 = s)) := by
  intro l
  induction l with
  | nil => simp [sortDesc]
  | cons p l ih =>
    simp only [sortDesc, filter_insertDesc, List.filter_cons, ih]
    by_cases hp : p.2 = s <;> simp [hp]

/-!  Lemmas about the synonym maximum. -/

/-- The running maximum never decreases. -/
theorem le_synFold (query : String) :
    ∀ (syns : List String) (m : Nat), m ≤ synFold query syns m := by
  intro syns
  induction syns with
  | nil => intro m; simp [synFold]
  | cons s0 ss ih =>
    intro m
    simp only [synFold]
    have h1 : m ≤ (if m < getMatchScore s0 query then getMatchScore s0 query else m) := by
      split <;> omega
    exact h1.trans (ih _)

/-- Every synonym's score is dominated by the final maximum. -/
theorem le_synFold_of_mem (query : String) :
    ∀ (syns : List String) (m : Nat) (syn : String), syn ∈ syns →
      getMatchScore syn query ≤ synFold query syns m := by
  intro syns
  induction syns with
  | nil => intro m syn h; simp at h
  | cons s0 ss ih =>
    intro m syn hmem
    rcases List.mem_cons.1 hmem with rfl | h
    · simp only [synFold]
      have h1 : getMatchScore syn query ≤
          (if m < getMatchScore syn query then getMatchScore syn query else m) := by
        split <;> omega
      exact h1.trans (le_synFold query ss _)
    · exact ih _ syn h

/-- The final maximum is the start value or one of the synonym scores. -/
theorem synFold_eq_init_or_mem (query : String) :
    ∀ (syns : List String) (m : Nat),
      synFold query syns m = m ∨
        ∃ syn ∈ syns, synFold query syns m = getMatchScore syn query := by
  intro syns
  induction syns with
  | nil => intro m; left; rfl
  | cons s0 ss ih =>
    intro m
    simp only [synFold]
    by_cases h : m < getMatchScore s0 query
    · rw [if_pos h]
      rcases ih (getMatchScore s0 query) with h1 | ⟨syn, hs, h2⟩
      · right; exact ⟨s0, by simp, h1⟩
      · right; exact ⟨syn, by simp [hs], h2⟩
    · rw [if_neg h]
      rcases ih m with h1 | ⟨syn, hs, h2⟩
      · left; exact h1
      · right; exact ⟨syn, by simp [hs], h2⟩

/-- The effective score is exactly the maximum of the symptom's own score
and the scores of its registered synonyms. -/
theorem effectiveScore_spec (item query : String) :
    getMatchScore item query ≤ effectiveScore item query ∧
    (∀ syn ∈ (SYNONYMS.lookup item).getD [],
        getMatchScore syn query ≤ effectiveScore item query) ∧
    (effectiveScore item query = getMatchScore item query ∨
      ∃ syn ∈ (SYNONYMS.lookup item).getD [],
        effectiveScore item query = getMatchScore syn query) := by
  unfold effectiveScore
  cases h : SYNONYMS.lookup item with
  | none => simp
  | some syns =>
    simp only [Option.getD_some]
    exact ⟨le_synFold query syns _,
      fun syn hs => le_synFold_of_mem query syns _ syn hs,
      synFold_eq_init_or_mem query syns _⟩

/-!  Agreement of the bounds-checked pipeline with the total one: the checked
copy never fails and computes the same values. -/

/-- The inner fill never reads out of bounds when the previous row is wide
enough. -/
theorem levGoC_eq (bc : Char) :
    ∀ (as : List Char) (ps : List Nat) (diag left : Nat),
      ps.length = as.length →
      levGoC bc as diag left ps = some (levGo bc as diag left ps) := by
  intro as
  induction as with
  | nil => intro ps diag left _; cases ps <;> simp [levGoC, levGo]
  | cons ac as ih =>
    intro ps diag left h
    cases ps with
    | nil => simp at h
    | cons up ps' =>
      simp only [levGoC, levGo]
      rw [ih ps' up _ (by simpa using h)]
      rfl

/-- Row construction never fails on a full-width previous row. -/
theorem levRowNextC_eq (a : List Char) (bc : Char) (i : Nat) (prev : List Nat)
    (h : prev.length = a.length + 1) :
    levRowNextC a bc i prev = some (levRowNext a bc i prev) := by
  cases prev with
  | nil => simp at h
  | cons d ps =>
    simp only [levRowNextC, levRowNext]
    rw [levGoC_eq bc a ps d i (by simpa using h)]
    rfl

/-- The row loop never fails. -/
theorem levLoopC_eq (a : List Char) :
    ∀ (bs : List Char) (i : Nat) (prev : List Nat),
      prev.length = a.length + 1 →
      levLoopC a bs i prev = some (levLoop a bs i prev) := by
  intro bs
  induction bs with
  | nil => intro i prev _; rfl
  | cons bc bs ih =>
    intro i prev h
    simp only [levLoopC, levLoop]
    rw [levRowNextC_eq a bc i prev h]
    simp only [Option.some_bind]
    exact ih (i + 1) _ (levRowNext_length a bc i prev h)

/-- The checked distance always succeeds, with the value of the total one. -/
theorem levenshteinDistanceC_eq (a b : List Char) :
    levenshteinDistanceC a b = some (levenshteinDistance a b) := by
  unfold levenshteinDistanceC levenshteinDistance
  rw [levLoopC_eq a b 1 _ (by simp)]
  simp only [Option.some_bind]
  have hlen := levLoop_length a b 1 (List.range (a.length + 1)) (by simp)
  rw [List.getD_eq_getElem?_getD, List.getElem?_eq_getElem (by omega)]
  rfl

/-- The checked scorer always succeeds, with the value of the total one. -/
theorem getMatchScoreC_eq (t q : String) :
    getMatchScoreC t q = some (getMatchScore t q) := by
  simp only [getMatchScoreC, getMatchScore]
  by_cases h1 : lowerStr t = lowerStr q
  · simp [h1]
  · rw [if_neg h1, if_neg h1]
    split
    · rfl
    · split
      · rfl
      · split
        · rw [levenshteinDistanceC_eq]
          rfl
        · rfl

/-- The checked synonym loop always succeeds. -/
theorem synFoldC_eq (query : String) :
    ∀ (syns : List String) (m : Nat),
      synFoldC query syns m = some (synFold query syns m) := by
  intro syns
  induction syns with
  | nil => intro m; rfl
  | cons s0 ss ih =>
    intro m
    simp only [synFoldC, synFold, getMatchScoreC_eq, Option.some_bind]
    exact ih _

/-- The checked effective score always succeeds. -/
theorem effectiveScoreC_eq (item query : String) :
    effectiveScoreC item query = some (effectiveScore item query) := by
  simp only [effectiveScoreC, effectiveScore, getMatchScoreC_eq, Option.some_bind]
  cases SYNONYMS.lookup item with
  | none => rfl
  | some syns => exact synFoldC_eq query syns _

/-- A monadic map whose body always succeeds is the plain map. -/
theorem mapOpt_eq {α β : Type} (f : α → Option β) (g : α → β)
    (hf : ∀ a, f a = some (g a)) :
    ∀ l : List α, mapOpt f l = some (l.map g) := by
  intro l
  induction l with
  | nil => rfl
  | cons a as ih =>
    simp only [mapOpt, hf a, Option.some_bind, ih, List.map_cons]
    rfl

/-- The checked per-category body always succeeds, with the value of the
total one. -/
theorem processCategoryC_eq (active : Finset String) (rawQuery cat : String)
    (items : List String) :
    processCategoryC active rawQuery cat items =
      some (processCategory active rawQuery cat items) := by
  simp only [processCategoryC, processCategory]
  by_cases hact : "All" ∈ active ∨ cat ∈ active
  · rw [if_pos hact, if_pos hact]
    by_cases hq : (strTrim rawQuery).data = []
    · rw [if_pos hq, if_pos hq]
    · rw [if_neg hq, if_neg hq]
      rw [getMatchScoreC_eq, Option.some_bind]
      rw [mapOpt_eq _ (fun item => (item, effectiveScore item (strTrim rawQuery)))
        (fun item => by rw [effectiveScoreC_eq]; rfl) items]
      rfl
  · rw [if_neg hact, if_neg hact]

/-!  Lemmas about the active-category toggle. -/

/-- One toggle preserves the state invariant: the set stays nonempty, and the
sentinel only ever occurs alone. -/
theorem toggleCategory_inv (active : Finset String) (cat : String)
    (h1 : active.Nonempty) (h2 : "All" ∈ active → active = {"All"}) :
    (toggleCategory active cat).Nonempty ∧
      ("All" ∈ toggleCategory active cat → toggleCategory active cat = {"All"}) := by
  unfold toggleCategory
  by_cases hcat : cat = "All"
  · rw [if_pos hcat]
    exact ⟨⟨"All", Finset.mem_singleton_self _⟩, fun _ => rfl⟩
  · rw [if_neg hcat]
    have hA1 : "All" ∉ (if "All" ∈ active then active.erase "All" else active) := by
      by_cases hA : "All" ∈ active
      · simp [hA, Finset.mem_erase]
      · simp [hA]
    set s1 := if "All" ∈ active then active.erase "All" else active with hs1
    have hA2 : "All" ∉ (if cat ∈ s1 then s1.erase cat else insert cat s1) := by
      by_cases hc : cat ∈ s1
      · rw [if_pos hc]
        intro hmem
        exact hA1 (Finset.mem_of_mem_erase hmem)
      · rw [if_neg hc]
        intro hmem
        rcases Finset.mem_insert.1 hmem with h | h
        · exact hcat h.symm
        · exact hA1 h
    set s2 := if cat ∈ s1 then s1.erase cat else insert cat s1 with hs2
    by_cases he : s2 = ∅
    · rw [if_pos he]
      exact ⟨⟨"All", Finset.mem_singleton_self _⟩, fun _ => rfl⟩
    · rw [if_neg he]
      exact ⟨Finset.nonempty_iff_ne_empty.2 he, fun hA => absurd hA hA2⟩

/-- The invariant holds in every state reachable from the initial sentinel
state by toggles. -/
theorem toggleCategory_reachable_inv :
    ∀ (ops : List String) (init : Finset String),
      init.Nonempty → ("All" ∈ init → init = {"All"}) →
      (ops.foldl toggleCategory init).Nonempty ∧
        ("All" ∈ ops.foldl toggleCategory init →
          ops.foldl toggleCategory init = {"All"}) := by
  intro ops
  induction ops with
  | nil => intro init h1 h2; exact ⟨h1, h2⟩
  | cons op ops ih =>
    intro init h1 h2
    simp only [List.foldl_cons]
    obtain ⟨g1, g2⟩ := toggleCategory_inv init op h1 h2
    exact ih _ g1 g2

/-- Toggling a specific category out of the sentinel state selects exactly
that category. -/
theorem toggleCategory_all_to_single (cat : String) (hcat : cat ≠ "All") :
    toggleCategory {"All"} cat = {cat} := by
  simp [toggleCategory, hcat, Finset.erase_singleton]

/-- Toggling off the last remaining specific category falls back to the
sentinel. -/
theorem toggleCategory_single_off (cat : String) (hcat : cat ≠ "All") :
    toggleCategory {cat} cat = {"All"} := by
  simp [toggleCategory, hcat, Ne.symm hcat, Finset.erase_singleton]

/-!  The claims. -/

/-- C10: for all strings `t` and `q`, `getMatchScore t q` lies in the finite
set `{0, 30, 40, 60, 80, 100}`: the fuzzy tier never returns 50 (distance 0
would make the lowercased strings equal, which tier 1 already returned as
100) and never returns a value below 30 (the admitted distance is capped at
tolerance 2). -/
theorem claim_C10_score_range (text query : String) :
    getMatchScore text query ∈ ([0, 30, 40, 60, 80, 100] : List Nat) :=
  getMatchScore_mem text query

/-- C8: for every candidate and query with no exact, prefix, or substring
match, a query of normalized length at most 2 scores 0 regardless of edit
distance; a longer query scores `50 - 10 * distance` when the Levenshtein
distance between query and candidate is within the tolerance (1 for length
at most 5, else 2), and 0 otherwise. -/
theorem claim_C8_fuzzy_tier (text query : String)
    (h1 : lowerStr text ≠ lowerStr query)
    (h2 : (lowerStr query).isPrefixOf (lowerStr text) = false)
    (h3 : containsSubstr (lowerStr text) (lowerStr query) = false) :
    ((lowerStr query).length ≤ 2 → getMatchScore text query = 0) ∧
    (2 < (lowerStr query).length →
      getMatchScore text query =
        (if levenshteinDistance (lowerStr query) (lowerStr text) ≤
              (if 5 < (lowerStr query).length then 2 else 1)
          then 50 - levenshteinDistance (lowerStr query) (lowerStr text) * 10
          else 0)) := by
  simp only [getMatchScore]
  rw [if_neg h1, h2, h3]
  simp only [Bool.false_eq_true, if_false]
  constructor
  · intro hlen
    rw [if_neg (by omega)]
  · intro hlen
    rw [if_pos hlen]

/-- Witness for C8 at concrete inputs: a one-typo long query scores 40, and a
two-character query with no textual match scores 0. -/
theorem claim_C8_fuzzy_tier_witness :
    getMatchScore "Fever" "fevr" = 40 ∧ getMatchScore "Rash" "xq" = 0 := by
  constructor
  · have h := (claim_C8_fuzzy_tier "Fever" "fevr" (by decide) (by decide) (by decide)).2
      (by decide)
    exact h.trans (by decide)
  · exact (claim_C8_fuzzy_tier "Rash" "xq" (by decide) (by decide) (by decide)).1 (by decide)

/-- C1 counterexample: the claim says `score("Fever", "feve") = 40`; in fact
the prefix tier fires first and the score is 80. -/
theorem claim_C1_counterexample : ¬ getMatchScore "Fever" "feve" = 40 := by decide

set_option maxHeartbeats 1000000 in
set_option maxRecDepth 10000 in
/-- C1 (amended): for query `"feve"` against candidate `"Fever"`, the edit
distance is 1, but since `"feve"` is a prefix of `"fever"` the prefix tier
returns 80 before the fuzzy tier can run; the symptom `"Fever"` does appear
in the results of `filterAndRank` for query `"feve"`. -/
theorem claim_C1_amended :
    levenshteinDistance (lowerStr "feve") (lowerStr "Fever") = 1 ∧
    getMatchScore "Fever" "feve" = 80 ∧
    ∃ e ∈ filterAndRank "feve" {"All"}, e.1 = "General" ∧ "Fever" ∈ e.2 := by decide

/-- C3 counterexample: the claim says the selection is cleared on cancel; in
fact the cancel/close path leaves a nonempty selection in place. -/
theorem claim_C3_counterexample :
    ¬ (handleCancel ⟨true, {"Fever"}, "", {"All"}⟩).selected = ∅ := by decide

/-- C3 (amended): the selection, query and active-category state are cleared
on confirm only; the cancel/close transition merely closes the modal and
leaves all three untouched, so a selection does survive into the next
opening of the selector. -/
theorem claim_C3_amended (st : SelectorState) :
    (handleConfirm st).1.selected = ∅ ∧
    (handleConfirm st).1.searchQuery = "" ∧
    (handleConfirm st).1.activeCategories = {"All"} ∧
    (handleConfirm st).1.isOpen = false ∧
    (handleConfirm st).2 = st.selected ∧
    handleCancel st = { st with isOpen := false } := by
  exact ⟨rfl, rfl, rfl, rfl, rfl, rfl⟩

/-- C4: for every query that is empty or consists only of whitespace, and
every active-category selection, `filterAndRank` returns exactly the active
categories, each unmodified with its full symptom list in taxonomy order. -/
theorem claim_C4_empty_query (rawQuery : String) (active : Finset String)
    (hws : ∀ c ∈ rawQuery.data, c.isWhitespace = true) :
    filterAndRank rawQuery active =
      CATEGORIES.filter (fun c => decide ("All" ∈ active ∨ c.1 ∈ active)) := by
  have htrim : (strTrim rawQuery).data = [] := by
    have h1 : rawQuery.data.dropWhile Char.isWhitespace = [] :=
      List.dropWhile_eq_nil_iff.2 hws
    simp [strTrim, trimL, h1]
  unfold filterAndRank
  have hgen : ∀ l : List (String × List String),
      l.filterMap (fun c => processCategory active rawQuery c.1 c.2) =
        l.filter (fun c => decide ("All" ∈ active ∨ c.1 ∈ active)) := by
    intro l
    induction l with
    | nil => rfl
    | cons c l ih =>
      rw [List.filterMap_cons, List.filter_cons]
      by_cases hact : "All" ∈ active ∨ c.1 ∈ active
      · have hp : processCategory active rawQuery c.1 c.2 = some c := by
          simp [processCategory, hact, htrim]
        rw [hp]
        simp [hact, ih]
      · have hp : processCategory active rawQuery c.1 c.2 = none := by
          simp [processCategory, hact]
        rw [hp]
        simp [hact, ih]
  exact hgen CATEGORIES

/-- Witness for C4: on a whitespace-only query with the sentinel selection,
the full taxonomy comes back unchanged. -/
theorem claim_C4_empty_query_witness : filterAndRank "   " {"All"} = CATEGORIES :=
  (claim_C4_empty_query "   " {"All"} (by decide)).trans (by decide)

set_option maxHeartbeats 1000000 in
set_option maxRecDepth 10000 in
/-- C2 counterexample: `"Gener"` is a proper case-insensitive prefix of the
category name `"General"`, yet its category-name score is 80 < 90 and
`filterAndRank` does not include the `General` category at all, let alone
with all of its symptoms. -/
theorem claim_C2_counterexample :
    (lowerStr "Gener").isPrefixOf (lowerStr "General") = true ∧
    getMatchScore "General" "Gener" < 90 ∧
    ∀ e ∈ filterAndRank "Gener" {"All"}, e.1 ≠ "General" := by decide

/-- C2 (amended): the category-level bypass triggers exactly when the query
is a case-insensitive exact match of the category name: an exact match
scores 100 ≥ 90, a score of at least 90 is only reachable by an exact match
(a proper prefix scores only 80), and whenever the category-name score of
the trimmed query is at least 90 the category is returned with all of its
symptoms, unscored and unreordered. -/
theorem claim_C2_bypass_iff :
    (∀ cat query : String, lowerStr cat = lowerStr query →
      90 ≤ getMatchScore cat query) ∧
    (∀ cat query : String, 90 ≤ getMatchScore cat query →
      lowerStr cat = lowerStr query) ∧
    (∀ (active : Finset String) (rawQuery cat : String) (items : List String),
      ("All" ∈ active ∨ cat ∈ active) →
      90 ≤ getMatchScore cat (strTrim rawQuery) →
      processCategory active rawQuery cat items = some (cat, items)) := by
  refine ⟨?_, ?_, ?_⟩
  · intro cat query h
    rw [getMatchScore_eq_100 cat query h]
    omega
  · intro cat query h
    by_contra hne
    have := getMatchScore_lt_90 cat query hne
    omega
  · intro active rawQuery cat items hact h90
    simp only [processCategory]
    rw [if_pos hact]
    by_cases hq : (strTrim rawQuery).data = []
    · rw [if_pos hq]
    · rw [if_neg hq]
      simp [h90]

/-- Witness for C2: the exact query `"respiratory"` scores at least 90
against `"Respiratory"` and the category comes back with all its symptoms. -/
theorem claim_C2_bypass_iff_witness :
    90 ≤ getMatchScore "Respiratory" "respiratory" ∧
    processCategory {"All"} "respiratory" "Respiratory"
        ["Cough", "Shortness of breath", "Sore throat", "Runny nose", "Wheezing",
         "Chest congestion", "Congestion", "Sneezing"] =
      some ("Respiratory",
        ["Cough", "Shortness of breath", "Sore throat", "Runny nose", "Wheezing",
         "Chest congestion", "Congestion", "Sneezing"]) := by
  refine ⟨claim_C2_bypass_iff.1 "Respiratory" "respiratory" (by decide), ?_⟩
  exact claim_C2_bypass_iff.2.2 {"All"} "respiratory" "Respiratory" _
    (Or.inl (by decide)) (by decide)

/-- C6: for every query that case-insensitively equals an (active) category's
name, `filterAndRank` returns that category with all of its symptoms,
including symptoms whose own effective score against the query is 0. -/
theorem claim_C6_exact_category_match (rawQuery cat : String)
    (items : List String) (active : Finset String)
    (hmem : (cat, items) ∈ CATEGORIES)
    (hact : "All" ∈ active ∨ cat ∈ active)
    (hexact : lowerStr cat = lowerStr (strTrim rawQuery)) :
    (cat, items) ∈ filterAndRank rawQuery active := by
  have hproc : processCategory active rawQuery cat items = some (cat, items) := by
    by_cases hq : (strTrim rawQuery).data = []
    · simp [processCategory, hact, hq]
    · have h90 : 90 ≤ getMatchScore cat (strTrim rawQuery) := by
        rw [getMatchScore_eq_100 cat (strTrim rawQuery) hexact]
        omega
      simp only [processCategory]
      rw [if_pos hact, if_neg hq]
      simp [h90]
  exact List.mem_filterMap.2 ⟨(cat, items), hmem, hproc⟩

set_option maxHeartbeats 1000000 in
set_option maxRecDepth 10000 in
/-- Witness for C6: the exact query `"digestive"` brings back the whole
`Digestive` category although `"Nausea"` on its own scores 0 against it. -/
theorem claim_C6_exact_category_match_witness :
    ("Digestive",
      ["Nausea", "Vomiting", "Diarrhea", "Abdominal pain", "Bloating", "Heartburn",
       "Loss of appetite", "Indigestion", "Constipation"]) ∈
        filterAndRank "digestive" {"All"} ∧
    effectiveScore "Nausea" "digestive" = 0 := by
  refine ⟨claim_C6_exact_category_match "digestive" "Digestive" _ {"All"}
    (by decide) (Or.inl (by decide)) (by decide), by decide⟩

/-- C7: after every sequence of category toggles starting from the sentinel
state, the active set is never empty; toggling a specific category while the
sentinel is present yields exactly that category, toggling off the last
remaining specific category resets to the sentinel, and toggling the
sentinel always yields exactly the sentinel. -/
theorem claim_C7_toggle_invariant (ops : List String) :
    (ops.foldl toggleCategory {"All"}).Nonempty ∧
    (∀ cat : String, cat ≠ "All" → "All" ∈ ops.foldl toggleCategory {"All"} →
      toggleCategory (ops.foldl toggleCategory {"All"}) cat = {cat}) ∧
    (∀ cat : String, cat ≠ "All" → ops.foldl toggleCategory {"All"} = {cat} →
      toggleCategory (ops.foldl toggleCategory {"All"}) cat = {"All"}) ∧
    toggleCategory (ops.foldl toggleCategory {"All"}) "All" = {"All"} := by
  obtain ⟨h1, h2⟩ := toggleCategory_reachable_inv ops {"All"}
    ⟨"All", Finset.mem_singleton_self _⟩ (fun _ => rfl)
  refine ⟨h1, ?_, ?_, ?_⟩
  · intro cat hcat hAll
    rw [h2 hAll]
    exact toggleCategory_all_to_single cat hcat
  · intro cat hcat hS
    rw [hS]
    exact toggleCategory_single_off cat hcat
  · unfold toggleCategory
    rw [if_pos rfl]

/-- Witness for C7: toggling `General` on and then off again lands back on
the sentinel, never on the empty set. -/
theorem claim_C7_toggle_invariant_witness :
    toggleCategory (["General"].foldl toggleCategory {"All"}) "General" = {"All"} :=
  (claim_C7_toggle_invariant ["General"]).2.2.1 "General" (by decide) (by decide)

/-- C9: the pipeline is total and never throws: the bounds-checked copy of
`filterAndRank`, in which every array access of the Levenshtein matrix is a
fallible lookup, succeeds on every query string and every active-category
selection, returning exactly the value of the total function (at worst an
empty list, never a failure). -/
theorem claim_C9_never_throws (rawQuery : String) (active : Finset String) :
    filterAndRankC rawQuery active = some (filterAndRank rawQuery active) := by
  unfold filterAndRankC filterAndRank
  rw [mapOpt_eq _ (fun c => processCategory active rawQuery c.1 c.2)
    (fun c => processCategoryC_eq active rawQuery c.1 c.2) CATEGORIES]
  show some (List.reduceOption (CATEGORIES.map _)) = _
  rw [List.reduceOption, List.filterMap_map]
  rfl

/-- C5: for every non-empty trimmed query and every active category whose
category-name score is below 90, each symptom's effective score is the
maximum of its own score and its registered synonyms' scores; symptoms with
effective score 0 are discarded (the category itself is dropped when none
survive); the survivors come back sorted by effective score descending, and
equally-scored symptoms keep their original declaration order. -/
theorem claim_C5_item_ranking (active : Finset String) (rawQuery cat : String)
    (items : List String)
    (hact : "All" ∈ active ∨ cat ∈ active)
    (hq : (strTrim rawQuery).data ≠ [])
    (hcat : getMatchScore cat (strTrim rawQuery) < 90) :
    (∀ item : String,
      getMatchScore item (strTrim rawQuery) ≤ effectiveScore item (strTrim rawQuery) ∧
      (∀ syn ∈ (SYNONYMS.lookup item).getD [],
        getMatchScore syn (strTrim rawQuery) ≤ effectiveScore item (strTrim rawQuery)) ∧
      (effectiveScore item (strTrim rawQuery) = getMatchScore item (strTrim rawQuery) ∨
        ∃ syn ∈ (SYNONYMS.lookup item).getD [],
          effectiveScore item (strTrim rawQuery) = getMatchScore syn (strTrim rawQuery))) ∧
    (items.filter (fun i => decide (0 < effectiveScore i (strTrim rawQuery))) = [] →
      processCategory active rawQuery cat items = none) ∧
    (items.filter (fun i => decide (0 < effectiveScore i (strTrim rawQuery))) ≠ [] →
      ∃ ranked, processCategory active rawQuery cat items = some (cat, ranked)) ∧
    (∀ ranked, processCategory active rawQuery cat items = some (cat, ranked) →
      (∀ i : String, i ∈ ranked ↔
        i ∈ items ∧ 0 < effectiveScore i (strTrim rawQuery)) ∧
      ranked.Pairwise (fun x y =>
        effectiveScore y (strTrim rawQuery) ≤ effectiveScore x (strTrim rawQuery)) ∧
      (∀ s : Nat,
        ranked.filter (fun i => decide (effectiveScore i (strTrim rawQuery) = s)) =
          (items.filter (fun i => decide (0 < effectiveScore i (strTrim rawQuery)))).filter
            (fun i => decide (effectiveScore i (strTrim rawQuery) = s)))) := by
  have h90 : ¬ 90 ≤ getMatchScore cat (strTrim rawQuery) := by omega
  have hrw : processCategory active rawQuery cat items =
      (if 0 < ((items.map
            (fun item => (item, effectiveScore item (strTrim rawQuery)))).filter
              (fun p => decide (0 < p.2))).length
        then some (cat,
          (sortDesc ((items.map
            (fun item => (item, effectiveScore item (strTrim rawQuery)))).filter
              (fun p => decide (0 < p.2)))).map (fun p => p.1))
        else none) := by
    simp only [processCategory]
    rw [if_pos hact, if_neg hq, if_neg h90]
  have hrel : (items.map
        (fun item => (item, effectiveScore item (strTrim rawQuery)))).filter
          (fun p => decide (0 < p.2)) =
      (items.filter (fun i => decide (0 < effectiveScore i (strTrim rawQuery)))).map
        (fun i => (i, effectiveScore i (strTrim rawQuery))) := by
    rw [List.filter_map]
    rfl
  refine ⟨fun item => effectiveScore_spec item (strTrim rawQuery), ?_, ?_, ?_⟩
  · intro hs
    rw [hrw, hrel, hs]
    rfl
  · intro hs
    rw [hrw, hrel]
    rw [if_pos (by
      rw [List.length_map]
      exact List.length_pos.2 hs)]
    exact ⟨_, rfl⟩
  · intro ranked hproc
    rw [hrw] at hproc
    by_cases hlen : 0 < ((items.map
        (fun item => (item, effectiveScore item (strTrim rawQuery)))).filter
          (fun p => decide (0 < p.2))).length
    swap
    · rw [if_neg hlen] at hproc
      exact absurd hproc (by simp)
    rw [if_pos hlen] at hproc
    simp only [Option.some.injEq, Prod.mk.injEq] at hproc
    obtain ⟨-, hr⟩ := hproc
    subst hr
    have hsnd : ∀ p ∈ sortDesc ((items.map
        (fun item => (item, effectiveScore item (strTrim rawQuery)))).filter
          (fun p => decide (0 < p.2))),
        p.2 = effectiveScore p.1 (strTrim rawQuery) := by
      intro p hp
      have hp2 := (mem_sortDesc p _).1 hp
      rw [hrel] at hp2
      rcases List.mem_map.1 hp2 with ⟨j, _, rfl⟩
      rfl
    refine ⟨?_, ?_, ?_⟩
    · intro i
      constructor
      · intro hi
        rcases List.mem_map.1 hi with ⟨p, hp, rfl⟩
        have hp2 := (mem_sortDesc p _).1 hp
        rw [hrel] at hp2
        rcases List.mem_map.1 hp2 with ⟨j, hj, rfl⟩
        rcases List.mem_filter.1 hj with ⟨hj1, hj2⟩
        exact ⟨hj1, by simpa using hj2⟩
      · rintro ⟨hi1, hi2⟩
        refine List.mem_map.2 ⟨(i, effectiveScore i (strTrim rawQuery)),
          (mem_sortDesc _ _).2 ?_, rfl⟩
        rw [hrel]
        exact List.mem_map.2 ⟨i, List.mem_filter.2 ⟨hi1, by simpa using hi2⟩, rfl⟩
    · have hpw := pairwise_sortDesc ((items.map
          (fun item => (item, effectiveScore item (strTrim rawQuery)))).filter
            (fun p => decide (0 < p.2)))
      rw [List.pairwise_map]
      refine List.Pairwise.imp_of_mem ?_ hpw
      intro p p' hp hp' hle
      rw [← hsnd p hp, ← hsnd p' hp']
      exact hle
    · intro s
      rw [List.filter_map]
      have hcongr : (sortDesc ((items.map
            (fun item => (item, effectiveScore item (strTrim rawQuery)))).filter
              (fun p => decide (0 < p.2)))).filter
            ((fun i => decide (effectiveScore i (strTrim rawQuery) = s)) ∘
              (fun p => p.1)) =
          (sortDesc ((items.map
            (fun item => (item, effectiveScore item (strTrim rawQuery)))).filter
              (fun p => decide (0 < p.2)))).filter (fun p => decide (p.2 = s)) := by
        apply List.filter_congr
        intro p hp
        simp only [Function.comp]
        rw [hsnd p hp]
      rw [hcongr, filter_sortDesc, hrel, List.filter_map, List.map_map]
      have hf1 : ((fun x : String × Nat => decide (x.2 = s)) ∘
          fun i : String => (i, effectiveScore i (strTrim rawQuery))) =
          fun i : String => decide (effectiveScore i (strTrim rawQuery) = s) := rfl
      have hf2 : ((fun p : String × Nat => p.1) ∘
          fun i : String => (i, effectiveScore i (strTrim rawQuery))) =
          fun i : String => i := rfl
      rw [hf1, hf2, List.map_id']

set_option maxHeartbeats 1000000 in
set_option maxRecDepth 10000 in
/-- Witness for C5: on query `"feve"`, the `General` category keeps exactly
its one positively-scoring symptom `"Fever"`, and the membership
characterisation instantiates to it. -/
theorem claim_C5_item_ranking_witness :
    processCategory {"All"} "feve" "General"
        ["Fever", "Fatigue", "Chills", "Weakness", "Dizziness", "Insomnia",
         "Weight loss", "Night sweats", "Sweating"] = some ("General", ["Fever"]) ∧
    ("Fever" ∈ (["Fever"] : List String) ↔
      "Fever" ∈ ["Fever", "Fatigue", "Chills", "Weakness", "Dizziness", "Insomnia",
        "Weight loss", "Night sweats", "Sweating"] ∧
      0 < effectiveScore "Fever" (strTrim "feve")) := by
  have hp : processCategory {"All"} "feve" "General"
      ["Fever", "Fatigue", "Chills", "Weakness", "Dizziness", "Insomnia",
       "Weight loss", "Night sweats", "Sweating"] = some ("General", ["Fever"]) := by
    decide
  have h := claim_C5_item_ranking {"All"} "feve" "General"
    ["Fever", "Fatigue", "Chills", "Weakness", "Dizziness", "Insomnia",
     "Weight loss", "Night sweats", "Sweating"]
    (Or.inl (by decide)) (by decide) (by decide)
  exact ⟨hp, (h.2.2.2 ["Fever"] hp).1 "Fever"⟩
